import Mathlib

/-!
Shallow embedding of the checkers rule engine from `src/checkersGame.cpp`.

The board is an 8×8 grid of optional pieces (`Piece* grid[8][8]` in the
source, modelled as a total function `Int → Int → Option Piece` accessed
through `getPiece`, which clamps out-of-range coordinates to empty exactly
as `Board::getPiece` does).  The engine state is the board together with
`currentPlayer`.  Move validation (`isSimpleMoveValid`, `isJumpValid`),
move generation (`getPossibleJumpsForPiece`, `getAllPossibleJumps`,
`getAllPossibleSimpleMoves`), execution (`executeMove` with capture,
multi-jump detection, kinging and turn switching) and the terminal check
(`checkForWin`) are translated function by function from the source.
The per-candidate acceptance logic of `CheckersGame::run` (lines 470–512)
is captured by `decideMove`, which returns the rejection/acceptance
outcome together with the successor state.
-/

namespace Checkers

/-- The `Player` enum of the source (`NONE`, `RED`, `BLACK`). -/
inductive Player where
  | NONE : Player
  | RED : Player
  | BLACK : Player
deriving DecidableEq, Repr

/-- The `Piece` class: owner, king flag and stored position (`row`, `col`). -/
structure Piece where
  owner : Player
  isKing : Bool
  row : Int
  col : Int
deriving DecidableEq, Repr

/-- The 8×8 grid of owning pointers, modelled as a total function.  Cells
outside `[0,8) × [0,8)` are never read except through `getPiece`, which
clamps them to empty. -/
abbrev Board := Int → Int → Option Piece

/-- `Board::getPiece` (lines 159–165): bounds check, then grid lookup. -/
def getPiece (b : Board) (r c : Int) : Option Piece :=
  if r < 0 ∨ 8 ≤ r ∨ c < 0 ∨ 8 ≤ c then none else b r c

/-- `Board::movePiece` (lines 168–177): if a piece sits at `(r1,c1)`,
write it to `(r2,c2)`, clear `(r1,c1)` and update its stored position.
The source assigns `grid[r2][c2] = piece` and then `grid[r1][c1] = nullptr`,
so when the two squares coincide the final content is empty; the branch
order below reproduces that. -/
def movePiece (b : Board) (r1 c1 r2 c2 : Int) : Board :=
  match b r1 c1 with
  | none => b
  | some piece => fun r c =>
      if r = r1 ∧ c = c1 then none
      else if r = r2 ∧ c = c2 then some { piece with row := r2, col := c2 }
      else b r c

/-- `Board::removePiece` (lines 180–186): the square becomes empty (it
already is when no piece is present, so the guard of the source does not
change the resulting grid). -/
def removePiece (b : Board) (r c : Int) : Board :=
  fun r' c' => if r' = r ∧ c' = c then none else b r' c'

/-- `Board::initializeBoard` (lines 106–133): clear the grid, then place
Black men on the dark squares of rows 0–2 and Red men on the dark squares
of rows 5–7. -/
def initialBoard : Board := fun r c =>
  if 0 ≤ r ∧ r < 8 ∧ 0 ≤ c ∧ c < 8 ∧ (r + c) % 2 ≠ 0 then
    if r < 3 then some ⟨Player.BLACK, false, r, c⟩
    else if 5 ≤ r then some ⟨Player.RED, false, r, c⟩
    else none
  else none

/-- The `Move` struct of `CheckersGame` (start and end coordinates). -/
structure Move where
  startR : Int
  startC : Int
  endR : Int
  endC : Int
deriving DecidableEq, Repr

/-- Game state owned by `CheckersGame`: the board and `currentPlayer`. -/
structure GameState where
  board : Board
  currentPlayer : Player

/-- `CheckersGame::isInBounds` (lines 206–208). -/
def isInBounds (r c : Int) : Bool :=
  decide (0 ≤ r ∧ r < 8 ∧ 0 ≤ c ∧ c < 8)

/-- `CheckersGame::isSimpleMoveValid` (lines 211–229): source occupied,
target empty, one diagonal step, and the direction rule for non-kings
(Red toward smaller rows, Black toward larger rows). -/
def isSimpleMoveValid (b : Board) (r1 c1 r2 c2 : Int) : Bool :=
  match getPiece b r1 c1, getPiece b r2 c2 with
  | some piece, none =>
    if (r2 - r1).natAbs ≠ 1 ∨ (c2 - c1).natAbs ≠ 1 then false
    else if piece.isKing = false ∧
        ((piece.owner = Player.RED ∧ 0 < r2 - r1) ∨
         (piece.owner = Player.BLACK ∧ r2 - r1 < 0)) then false
    else true
  | _, _ => false

/-- `CheckersGame::isJumpValid` (lines 233–261): source occupied, target
empty, two diagonal steps, an enemy piece on the midpoint square, and the
direction rule for non-kings. -/
def isJumpValid (b : Board) (r1 c1 r2 c2 : Int) : Bool :=
  match getPiece b r1 c1, getPiece b r2 c2 with
  | some piece, none =>
    if (r2 - r1).natAbs ≠ 2 ∨ (c2 - c1).natAbs ≠ 2 then false
    else
      match getPiece b ((r1 + r2) / 2) ((c1 + c2) / 2) with
      | none => false
      | some jumped =>
        if jumped.owner = piece.owner ∨ jumped.owner = Player.NONE then false
        else if piece.isKing = false ∧
            ((piece.owner = Player.RED ∧ 0 < r2 - r1) ∨
             (piece.owner = Player.BLACK ∧ r2 - r1 < 0)) then false
        else true
  | _, _ => false

/-- `CheckersGame::getPossibleJumpsForPiece` (lines 264–281): try the four
two-square diagonal offsets from `(r,c)`. -/
def getPossibleJumpsForPiece (b : Board) (r c : Int) : List Move :=
  match getPiece b r c with
  | none => []
  | some _ =>
    ([(-2, -2), (-2, 2), (2, -2), (2, 2)] : List (Int × Int)).filterMap fun d =>
      let r2 := r + d.1
      let c2 := c + d.2
      if isInBounds r2 c2 = true ∧ isJumpValid b r c r2 c2 = true then
        some ⟨r, c, r2, c2⟩
      else none

/-- Row-major list of the 64 board coordinates, as iterated by the nested
loops of the source. -/
def squares : List (Int × Int) :=
  (List.range 8).flatMap fun r => (List.range 8).map fun c => ((r : Int), (c : Int))

/-- `CheckersGame::getAllPossibleJumps` (lines 284–296): all jumps of all
pieces owned by the current player. -/
def getAllPossibleJumps (g : GameState) : List Move :=
  squares.flatMap fun rc =>
    match getPiece g.board rc.1 rc.2 with
    | some piece =>
      if piece.owner = g.currentPlayer then
        getPossibleJumpsForPiece g.board rc.1 rc.2
      else []
    | none => []

/-- `CheckersGame::getAllPossibleSimpleMoves` (lines 299–319). -/
def getAllPossibleSimpleMoves (g : GameState) : List Move :=
  squares.flatMap fun rc =>
    match getPiece g.board rc.1 rc.2 with
    | some piece =>
      if piece.owner = g.currentPlayer then
        ([(-1, -1), (-1, 1), (1, -1), (1, 1)] : List (Int × Int)).filterMap fun d =>
          let r2 := rc.1 + d.1
          let c2 := rc.2 + d.2
          if isInBounds r2 c2 = true ∧ isSimpleMoveValid g.board rc.1 rc.2 r2 c2 = true then
            some ⟨rc.1, rc.2, r2, c2⟩
          else none
      else []
    | none => []

/-- `CheckersGame::switchPlayer` (lines 322–324). -/
def switchPlayer (p : Player) : Player :=
  if p = Player.RED then Player.BLACK else Player.RED

/-- Step 4 of `CheckersGame::executeMove` (lines 347–357): the kinging
check at the landing square — a Red piece on row 0 or a Black piece on
row 7 is made a king in place. -/
def promoteAt (b : Board) (r c : Int) : Board :=
  match getPiece b r c with
  | none => b
  | some piece =>
    if piece.owner = Player.RED ∧ r = 0 then
      fun r' c' => if r' = r ∧ c' = c then some { piece with isKing := true } else b r' c'
    else if piece.owner = Player.BLACK ∧ r = 7 then
      fun r' c' => if r' = r ∧ c' = c then some { piece with isKing := true } else b r' c'
    else b

/-- `CheckersGame::executeMove` (lines 327–362): relocate the piece; if the
move was a jump (`|Δrow| == 2`) remove the captured midpoint piece and, when
the moved piece has a further jump from its landing square, return `true`
("keep jumping") with the player unchanged; otherwise run the kinging check
and switch the player, returning `false`. -/
def executeMove (g : GameState) (r1 c1 r2 c2 : Int) : Bool × GameState :=
  let b1 := movePiece g.board r1 c1 r2 c2
  if (r2 - r1).natAbs = 2 then
    let b2 := removePiece b1 ((r1 + r2) / 2) ((c1 + c2) / 2)
    if getPossibleJumpsForPiece b2 r2 c2 ≠ [] then
      (true, { board := b2, currentPlayer := g.currentPlayer })
    else
      (false, { board := promoteAt b2 r2 c2, currentPlayer := switchPlayer g.currentPlayer })
  else
    (false, { board := promoteAt b1 r2 c2, currentPlayer := switchPlayer g.currentPlayer })

/-- `CheckersGame::checkForWin` piece counting (lines 366–376). -/
def countPieces (b : Board) (p : Player) : Nat :=
  (squares.filter fun rc =>
    match getPiece b rc.1 rc.2 with
    | some piece => piece.owner = p
    | none => False).length

/-- `CheckersGame::checkForWin` (lines 365–388): a side with no pieces
loses; otherwise a current player with no jumps and no simple moves loses;
otherwise no winner yet. -/
def checkForWin (g : GameState) : Player :=
  if countPieces g.board Player.RED = 0 then Player.BLACK
  else if countPieces g.board Player.BLACK = 0 then Player.RED
  else if getAllPossibleJumps g = [] ∧ getAllPossibleSimpleMoves g = [] then
    (if g.currentPlayer = Player.RED then Player.BLACK else Player.RED)
  else Player.NONE

/-- The rejection/acceptance outcomes of a single submitted candidate in
`CheckersGame::run` (lines 470–512), one constructor per message branch,
plus the two acceptance results of `executeMove`. -/
inductive Outcome where
  | invalidSelection : Outcome
  | captureMandatory : Outcome
  | invalidJump : Outcome
  | invalidSimple : Outcome
  | turnEnded : Outcome
  | continuationRequired : Outcome
deriving DecidableEq, Repr

/-- The candidate-handling body of `CheckersGame::run` (lines 470–512),
entered after `parseInput` succeeded (both coordinates in bounds and
`from ≠ to`): ownership screening, then the forced-jump branch (when
`getAllPossibleJumps` is non-empty) accepting only valid jumps and
rejecting non-jumps with the capture-mandatory message, then the free
branch accepting valid jumps and valid simple moves.  Accepted moves run
`executeMove`; every rejection leaves the state untouched. -/
def decideMove (g : GameState) (r1 c1 r2 c2 : Int) : Outcome × GameState :=
  match getPiece g.board r1 c1 with
  | none => (Outcome.invalidSelection, g)
  | some piece =>
    if piece.owner ≠ g.currentPlayer then (Outcome.invalidSelection, g)
    else if getAllPossibleJumps g ≠ [] then
      if (r2 - r1).natAbs = 2 then
        if isJumpValid g.board r1 c1 r2 c2 = true then
          let res := executeMove g r1 c1 r2 c2
          (if res.1 then Outcome.continuationRequired else Outcome.turnEnded, res.2)
        else (Outcome.invalidJump, g)
      else (Outcome.captureMandatory, g)
    else
      if (r2 - r1).natAbs = 2 then
        if isJumpValid g.board r1 c1 r2 c2 = true then
          let res := executeMove g r1 c1 r2 c2
          (if res.1 then Outcome.continuationRequired else Outcome.turnEnded, res.2)
        else (Outcome.invalidJump, g)
      else if isSimpleMoveValid g.board r1 c1 r2 c2 = true then
        (Outcome.turnEnded, (executeMove g r1 c1 r2 c2).2)
      else (Outcome.invalidSimple, g)

/-- The state at the start of `CheckersGame::run`: the constructor (line
419) sets `currentPlayer` to `RED` and `run` initializes the board. -/
def initGame : GameState :=
  { board := initialBoard, currentPlayer := Player.RED }

/-- Game states reachable by the loop of `CheckersGame::run`: the initial
state, followed by any number of submitted candidates that passed
`parseInput` (in-bounds coordinates, `from ≠ to`); rejected candidates
return the state unchanged, accepted ones the `executeMove` successor. -/
inductive Reachable : GameState → Prop where
  | init : Reachable initGame
  | step (g : GameState) (r1 c1 r2 c2 : Int) (o : Outcome) (g' : GameState) :
      Reachable g → isInBounds r1 c1 = true → isInBounds r2 c2 = true →
      ¬(r1 = r2 ∧ c1 = c2) → decideMove g r1 c1 r2 c2 = (o, g') → Reachable g'

/-- The board invariant of the spec: every occupied square `(r,c)` stores a
piece whose recorded position is `(r,c)`, and only dark squares
(`(r+c)` odd) are occupied. -/
def boardInv (b : Board) : Prop :=
  ∀ r c p, getPiece b r c = some p → p.row = r ∧ p.col = c ∧ (r + c) % 2 = 1

/-- A five-piece test position with Red to move: Red men at (5,2) and
(5,6), Black men at (4,1), (2,1) and (4,5).  Red has the jumps
(5,2)→(3,0) and (5,6)→(3,4), and after (5,2)→(3,0) the landed piece has
the further jump (3,0)→(1,2) over (2,1). -/
def chainBoard : Board := fun r c =>
  if r = 5 ∧ c = 2 then some ⟨Player.RED, false, 5, 2⟩
  else if r = 4 ∧ c = 1 then some ⟨Player.BLACK, false, 4, 1⟩
  else if r = 2 ∧ c = 1 then some ⟨Player.BLACK, false, 2, 1⟩
  else if r = 5 ∧ c = 6 then some ⟨Player.RED, false, 5, 6⟩
  else if r = 4 ∧ c = 5 then some ⟨Player.BLACK, false, 4, 5⟩
  else none

/-- The test position above with Red to move. -/
def chainGame : GameState :=
  { board := chainBoard, currentPlayer := Player.RED }

/-- A state with an empty board (no pieces for either side). -/
def emptyGame : GameState :=
  { board := fun _ _ => none, currentPlayer := Player.RED }

/-- C9: in every newly constructed game the side to move is Red — the
`CheckersGame` constructor initializes `currentPlayer` to `RED`, so Red
makes the first move. -/
theorem C9_red_moves_first : initGame.currentPlayer = Player.RED := rfl

/-- C10: on a board where both sides have zero pieces, `checkForWin`
returns Black (Red's count is tested for exhaustion first); it never
reports absence of a winner in that case. -/
theorem C10_both_exhausted_black_wins (g : GameState)
    (hred : countPieces g.board Player.RED = 0)
    (hblack : countPieces g.board Player.BLACK = 0) :
    checkForWin g = Player.BLACK := by
  unfold checkForWin
  simp [hred]

/-- Witness for C10 at the empty board. -/
theorem C10_both_exhausted_black_wins_witness :
    countPieces emptyGame.board Player.RED = 0 ∧
    countPieces emptyGame.board Player.BLACK = 0 ∧
    checkForWin emptyGame = Player.BLACK :=
  ⟨by decide, by decide,
    C10_both_exhausted_black_wins emptyGame (by decide) (by decide)⟩

/-- C6: the terminal-state check returns the opposing side when one side
has zero pieces, otherwise the opposing side when the side to move has no
legal jumps and no legal simple moves, and otherwise no winner. -/
theorem C6_terminal_state_check (g : GameState) :
    (countPieces g.board Player.RED = 0 ∧ countPieces g.board Player.BLACK ≠ 0 →
      checkForWin g = Player.BLACK) ∧
    (countPieces g.board Player.BLACK = 0 ∧ countPieces g.board Player.RED ≠ 0 →
      checkForWin g = Player.RED) ∧
    (countPieces g.board Player.RED ≠ 0 → countPieces g.board Player.BLACK ≠ 0 →
      getAllPossibleJumps g = [] → getAllPossibleSimpleMoves g = [] →
      ((g.currentPlayer = Player.RED → checkForWin g = Player.BLACK) ∧
       (g.currentPlayer = Player.BLACK → checkForWin g = Player.RED))) ∧
    (countPieces g.board Player.RED ≠ 0 → countPieces g.board Player.BLACK ≠ 0 →
      ¬(getAllPossibleJumps g = [] ∧ getAllPossibleSimpleMoves g = []) →
      checkForWin g = Player.NONE) := by
  unfold checkForWin
  refine ⟨?_, ?_, ?_, ?_⟩
  · rintro ⟨h1, _⟩
    simp [h1]
  · rintro ⟨h1, h2⟩
    simp [h1, h2]
  · intro h1 h2 h3 h4
    constructor
    · intro h5
      simp [h1, h2, h3, h4, h5]
    · intro h5
      simp [h1, h2, h3, h4, h5]
  · intro h1 h2 h3
    simp [h1, h2, h3]

/-- Witness for C6 at the freshly initialized game. -/
theorem C6_terminal_state_check_witness :
    ((countPieces initGame.board Player.RED = 0 ∧
        countPieces initGame.board Player.BLACK ≠ 0 →
      checkForWin initGame = Player.BLACK) ∧
    (countPieces initGame.board Player.BLACK = 0 ∧
        countPieces initGame.board Player.RED ≠ 0 →
      checkForWin initGame = Player.RED) ∧
    (countPieces initGame.board Player.RED ≠ 0 →
      countPieces initGame.board Player.BLACK ≠ 0 →
      getAllPossibleJumps initGame = [] → getAllPossibleSimpleMoves initGame = [] →
      ((initGame.currentPlayer = Player.RED → checkForWin initGame = Player.BLACK) ∧
       (initGame.currentPlayer = Player.BLACK → checkForWin initGame = Player.RED))) ∧
    (countPieces initGame.board Player.RED ≠ 0 →
      countPieces initGame.board Player.BLACK ≠ 0 →
      ¬(getAllPossibleJumps initGame = [] ∧ getAllPossibleSimpleMoves initGame = []) →
      checkForWin initGame = Player.NONE)) ∧
    checkForWin initGame = Player.NONE :=
  ⟨C6_terminal_state_check initGame,
    (C6_terminal_state_check initGame).2.2.2 (by decide) (by decide)
      (by decide)⟩

/-- C7: every rejected candidate — empty or opposing source square,
invalid jump, capture-mandatory violation, invalid simple move — leaves
the game state (board and side to move) exactly as it was; no rejection
path performs a partial mutation. -/
theorem C7_rejection_preserves_state (g : GameState) (r1 c1 r2 c2 : Int)
    (o : Outcome) (g' : GameState)
    (h : decideMove g r1 c1 r2 c2 = (o, g'))
    (h1 : o ≠ Outcome.turnEnded) (h2 : o ≠ Outcome.continuationRequired) :
    g' = g := by
  simp only [decideMove] at h
  repeat' split at h
  all_goals
    first
      | (injection h with ho hg; exact hg.symm)
      | (injection h with ho hg; exact absurd ho.symm h1)
      | (injection h with ho hg; exact absurd ho.symm h2)

/-- Witness for C7: a candidate starting on an empty square is rejected
and the state is unchanged. -/
theorem C7_rejection_preserves_state_witness :
    (decideMove chainGame 0 0 1 1 = (Outcome.invalidSelection, chainGame) ∧
      Outcome.invalidSelection ≠ Outcome.turnEnded ∧
      Outcome.invalidSelection ≠ Outcome.continuationRequired) ∧
    chainGame = chainGame :=
  ⟨⟨by rfl, by decide, by decide⟩,
    C7_rejection_preserves_state chainGame 0 0 1 1 Outcome.invalidSelection chainGame
      (by rfl) (by decide) (by decide)⟩

/-- C3: an applied move yields "keep jumping" (continuation required)
exactly when it is a jump after which the moved piece has another legal
jump from its landing square, and then the side to move is unchanged;
every turn-ending applied move flips the side to move to the other side. -/
theorem C3_continuation_else_flip (g : GameState) (r1 c1 r2 c2 : Int)
    (k : Bool) (g' : GameState)
    (hres : executeMove g r1 c1 r2 c2 = (k, g')) :
    (k = true ↔ ((r2 - r1).natAbs = 2 ∧
      getPossibleJumpsForPiece
        (removePiece (movePiece g.board r1 c1 r2 c2) ((r1 + r2) / 2) ((c1 + c2) / 2))
        r2 c2 ≠ [])) ∧
    (k = true → g'.currentPlayer = g.currentPlayer) ∧
    (k = false →
      (g.currentPlayer = Player.RED → g'.currentPlayer = Player.BLACK) ∧
      (g.currentPlayer = Player.BLACK → g'.currentPlayer = Player.RED)) := by
  simp only [executeMove] at hres
  split at hres
  case isTrue hjump =>
    split at hres
    case isTrue hcont =>
      injection hres with hk hg
      subst hk
      subst hg
      refine ⟨by simp [hjump, hcont], fun _ => rfl, by simp⟩
    case isFalse hcont =>
      injection hres with hk hg
      subst hk
      subst hg
      refine ⟨by simp [hcont], by simp, fun _ => ?_⟩
      constructor
      · intro h
        simp [switchPlayer, h]
      · intro h
        simp [switchPlayer, h]
  case isFalse hjump =>
    injection hres with hk hg
    subst hk
    subst hg
    refine ⟨by simp [hjump], by simp, fun _ => ?_⟩
    constructor
    · intro h
      simp [switchPlayer, h]
    · intro h
      simp [switchPlayer, h]

/-- Witness for C3: the jump (5,2)→(3,0) in the chain position requires a
continuation, and the side to move stays Red. -/
theorem C3_continuation_else_flip_witness :
    executeMove chainGame 5 2 3 0 = (true, (executeMove chainGame 5 2 3 0).2) ∧
    (executeMove chainGame 5 2 3 0).2.currentPlayer = chainGame.currentPlayer :=
  ⟨rfl,
    (C3_continuation_else_flip chainGame 5 2 3 0 true
      (executeMove chainGame 5 2 3 0).2 rfl).2.1 rfl⟩

/-- C5: for squares on the board, a jump `from → to` is judged legal
(the mover owns the piece at `from` and `isJumpValid` holds) precisely
when: the mover's piece occupies `from`; `to` is empty; the displacement
is two diagonal squares; the midpoint square holds an opposing piece; and
non-kings satisfy the directionality rule (Red toward decreasing rows,
Black toward increasing rows). -/
theorem C5_jump_legality (b : Board) (mover : Player) (r1 c1 r2 c2 : Int)
    (hm : mover = Player.RED ∨ mover = Player.BLACK)
    (h1 : isInBounds r1 c1 = true) (h2 : isInBounds r2 c2 = true) :
    ((∃ p, getPiece b r1 c1 = some p ∧ p.owner = mover) ∧
      isJumpValid b r1 c1 r2 c2 = true) ↔
    (∃ p, getPiece b r1 c1 = some p ∧ p.owner = mover ∧
      getPiece b r2 c2 = none ∧
      (r2 - r1).natAbs = 2 ∧ (c2 - c1).natAbs = 2 ∧
      (∃ q, getPiece b ((r1 + r2) / 2) ((c1 + c2) / 2) = some q ∧
        ((mover = Player.RED ∧ q.owner = Player.BLACK) ∨
         (mover = Player.BLACK ∧ q.owner = Player.RED))) ∧
      (p.isKing = false →
        ((mover = Player.RED → r2 - r1 < 0) ∧
         (mover = Player.BLACK → 0 < r2 - r1)))) := by
  cases hp : getPiece b r1 c1 with
  | none => simp [isJumpValid, hp]
  | some p =>
    cases ht : getPiece b r2 c2 with
    | some t => simp [isJumpValid, hp, ht]
    | none =>
      by_cases hgr : (r2 - r1).natAbs = 2
      · by_cases hgc : (c2 - c1).natAbs = 2
        · cases hmid : getPiece b ((r1 + r2) / 2) ((c1 + c2) / 2) with
          | none => simp [isJumpValid, hp, ht, hgr, hgc, hmid]
          | some q =>
            rcases hm with rfl | rfl <;>
              cases hqo : q.owner <;> cases hpo : p.owner <;> cases hk : p.isKing <;>
                simp_all [isJumpValid] <;> omega
        · simp [isJumpValid, hp, ht, hgc]
      · simp [isJumpValid, hp, ht, hgr]

/-- Witness for C5 at the jump (5,2)→(3,0) of the chain position. -/
theorem C5_jump_legality_witness :
    (Player.RED = Player.RED ∨ Player.RED = Player.BLACK) ∧
    isInBounds 5 2 = true ∧ isInBounds 3 0 = true ∧
    (((∃ p, getPiece chainBoard 5 2 = some p ∧ p.owner = Player.RED) ∧
      isJumpValid chainBoard 5 2 3 0 = true) ↔
    (∃ p, getPiece chainBoard 5 2 = some p ∧ p.owner = Player.RED ∧
      getPiece chainBoard 3 0 = none ∧
      ((3 : Int) - 5).natAbs = 2 ∧ ((0 : Int) - 2).natAbs = 2 ∧
      (∃ q, getPiece chainBoard ((5 + 3) / 2) ((2 + 0) / 2) = some q ∧
        ((Player.RED = Player.RED ∧ q.owner = Player.BLACK) ∨
         (Player.RED = Player.BLACK ∧ q.owner = Player.RED))) ∧
      (p.isKing = false →
        ((Player.RED = Player.RED → (3 : Int) - 5 < 0) ∧
         (Player.RED = Player.BLACK → 0 < (3 : Int) - 5))))) :=
  ⟨Or.inl rfl, by decide, by decide,
    C5_jump_legality chainBoard Player.RED 5 2 3 0 (Or.inl rfl) (by decide) (by decide)⟩

/-- A successful lookup implies the coordinates are on the board and the
raw grid holds the piece. -/
theorem getPiece_some (b : Board) (r c : Int) (p : Piece)
    (h : getPiece b r c = some p) :
    0 ≤ r ∧ r < 8 ∧ 0 ≤ c ∧ c < 8 ∧ b r c = some p := by
  unfold getPiece at h
  split at h
  · exact absurd h (by simp)
  · next hcond => exact ⟨by omega, by omega, by omega, by omega, h⟩

/-- After `movePiece`, the landing square holds the relocated piece with
its position updated (provided the two squares differ and the landing
square is on the board). -/
theorem getPiece_movePiece_target (b : Board) (r1 c1 r2 c2 : Int) (p : Piece)
    (hb : b r1 c1 = some p) (hne : ¬(r2 = r1 ∧ c2 = c1))
    (hin : 0 ≤ r2 ∧ r2 < 8 ∧ 0 ≤ c2 ∧ c2 < 8) :
    getPiece (movePiece b r1 c1 r2 c2) r2 c2 =
      some { p with row := r2, col := c2 } := by
  have hnb : ¬(r2 < 0 ∨ 8 ≤ r2 ∨ c2 < 0 ∨ 8 ≤ c2) := by omega
  simp [movePiece, getPiece, hb, hne, hnb]

/-- `removePiece` empties the removed square. -/
theorem getPiece_removePiece_self (b : Board) (r c : Int) :
    getPiece (removePiece b r c) r c = none := by
  unfold getPiece removePiece
  split
  · rfl
  · simp

/-- `removePiece` leaves every other square unchanged. -/
theorem getPiece_removePiece_ne (b : Board) (r c r' c' : Int)
    (h : ¬(r' = r ∧ c' = c)) :
    getPiece (removePiece b r c) r' c' = getPiece b r' c' := by
  unfold getPiece removePiece
  split
  · rfl
  · simp [h]

/-- `promoteAt` leaves every square other than its target unchanged. -/
theorem getPiece_promoteAt_ne (b : Board) (r c r' c' : Int)
    (h : ¬(r' = r ∧ c' = c)) :
    getPiece (promoteAt b r c) r' c' = getPiece b r' c' := by
  unfold promoteAt
  split
  · rfl
  · split
    · unfold getPiece
      split
      · rfl
      · simp [h]
    · split
      · unfold getPiece
        split
        · rfl
        · simp [h]
      · rfl

/-- `promoteAt` kings the piece at its target square when the promotion
condition holds there. -/
theorem getPiece_promoteAt_self_promo (b : Board) (r c : Int) (q : Piece)
    (hq : getPiece b r c = some q)
    (hcond : (q.owner = Player.RED ∧ r = 0) ∨ (q.owner = Player.BLACK ∧ r = 7)) :
    getPiece (promoteAt b r c) r c = some { q with isKing := true } := by
  obtain ⟨hr0, hr1, hc0, hc1, _⟩ := getPiece_some b r c q hq
  rcases hcond with ⟨ho, hr⟩ | ⟨ho, hr⟩
  · simp only [promoteAt, hq]
    rw [if_pos ⟨ho, hr⟩]
    unfold getPiece
    split
    · next hcc => exact absurd hcc (by omega)
    · simp
  · simp only [promoteAt, hq]
    rw [if_neg (by rintro ⟨h1, _⟩; rw [ho] at h1; exact Player.noConfusion h1),
      if_pos ⟨ho, hr⟩]
    unfold getPiece
    split
    · next hcc => exact absurd hcc (by omega)
    · simp

/-- `promoteAt` changes nothing at its target square when the promotion
condition fails there. -/
theorem getPiece_promoteAt_self_nopromo (b : Board) (r c : Int) (q : Piece)
    (hq : getPiece b r c = some q)
    (hcond : ¬((q.owner = Player.RED ∧ r = 0) ∨ (q.owner = Player.BLACK ∧ r = 7))) :
    getPiece (promoteAt b r c) r c = some q := by
  have h1 : ¬(q.owner = Player.RED ∧ r = 0) := fun hh => hcond (Or.inl hh)
  have h2 : ¬(q.owner = Player.BLACK ∧ r = 7) := fun hh => hcond (Or.inr hh)
  simp only [promoteAt, hq]
  rw [if_neg h1, if_neg h2]
  exact hq

/-- C4: move execution follows the fixed order — relocate, then (for a
jump) remove the captured midpoint piece, then check for a continuation
jump, then check promotion only when no continuation is required, and only
then flip the side to move.  When a continuation is required the landing
piece keeps its king flag unchanged (promotion skipped); when the turn
ends the landing piece is kinged exactly when Red reaches row 0 or Black
reaches row 7 (idempotently: an existing king stays a king). -/
theorem C4_execution_order (g : GameState) (r1 c1 r2 c2 : Int) (p : Piece)
    (hp : getPiece g.board r1 c1 = some p)
    (h2 : isInBounds r2 c2 = true)
    (hgeom : ((r2 - r1).natAbs = 1 ∧ (c2 - c1).natAbs = 1) ∨
             ((r2 - r1).natAbs = 2 ∧ (c2 - c1).natAbs = 2))
    (k : Bool) (g' : GameState)
    (hres : executeMove g r1 c1 r2 c2 = (k, g')) :
    ((r2 - r1).natAbs = 2 →
      getPiece g'.board ((r1 + r2) / 2) ((c1 + c2) / 2) = none) ∧
    (k = true →
      getPiece g'.board r2 c2 = some ⟨p.owner, p.isKing, r2, c2⟩ ∧
      g'.currentPlayer = g.currentPlayer) ∧
    (k = false →
      (((p.owner = Player.RED ∧ r2 = 0) ∨ (p.owner = Player.BLACK ∧ r2 = 7)) →
        getPiece g'.board r2 c2 = some ⟨p.owner, true, r2, c2⟩) ∧
      (¬((p.owner = Player.RED ∧ r2 = 0) ∨ (p.owner = Player.BLACK ∧ r2 = 7)) →
        getPiece g'.board r2 c2 = some ⟨p.owner, p.isKing, r2, c2⟩) ∧
      g'.currentPlayer = switchPlayer g.currentPlayer) := by
  obtain ⟨hr1a, hr1b, hc1a, hc1b, hraw⟩ := getPiece_some g.board r1 c1 p hp
  have hin2 : 0 ≤ r2 ∧ r2 < 8 ∧ 0 ≤ c2 ∧ c2 < 8 := by
    simp only [isInBounds, decide_eq_true_eq] at h2
    exact h2
  have hne21 : ¬(r2 = r1 ∧ c2 = c1) := by
    rcases hgeom with ⟨h, _⟩ | ⟨h, _⟩ <;> (rintro ⟨e1, e2⟩; omega)
  have hmove : getPiece (movePiece g.board r1 c1 r2 c2) r2 c2 =
      some { p with row := r2, col := c2 } :=
    getPiece_movePiece_target g.board r1 c1 r2 c2 p hraw hne21 hin2
  simp only [executeMove] at hres
  split at hres
  case isTrue hjump =>
    have hmidne : ¬(r2 = (r1 + r2) / 2 ∧ c2 = (c1 + c2) / 2) := by
      rintro ⟨e, _⟩
      omega
    have hb2 : getPiece
        (removePiece (movePiece g.board r1 c1 r2 c2) ((r1 + r2) / 2) ((c1 + c2) / 2))
        r2 c2 = some { p with row := r2, col := c2 } := by
      rw [getPiece_removePiece_ne _ _ _ _ _ hmidne]
      exact hmove
    split at hres
    case isTrue hcont =>
      injection hres with hk hg
      subst hk
      subst hg
      exact ⟨fun _ => getPiece_removePiece_self _ _ _,
        fun _ => ⟨hb2, rfl⟩, by simp⟩
    case isFalse hcont =>
      injection hres with hk hg
      subst hk
      subst hg
      refine ⟨fun _ => ?_, by simp, fun _ => ⟨?_, ?_, rfl⟩⟩
      · rw [getPiece_promoteAt_ne _ _ _ _ _ (by rintro ⟨e, _⟩; omega)]
        exact getPiece_removePiece_self _ _ _
      · intro hcond
        exact getPiece_promoteAt_self_promo _ r2 c2 _ hb2 hcond
      · intro hcond
        exact getPiece_promoteAt_self_nopromo _ r2 c2 _ hb2 hcond
  case isFalse hjump =>
    injection hres with hk hg
    subst hk
    subst hg
    refine ⟨fun h => absurd h hjump, by simp, fun _ => ⟨?_, ?_, rfl⟩⟩
    · intro hcond
      exact getPiece_promoteAt_self_promo _ r2 c2 _ hmove hcond
    · intro hcond
      exact getPiece_promoteAt_self_nopromo _ r2 c2 _ hmove hcond

/-- Witness for C4: the continuation jump (5,2)→(3,0) in the chain
position empties the captured square (4,1), keeps the landed man unkinged
and keeps Red to move. -/
theorem C4_execution_order_witness :
    getPiece chainGame.board 5 2 = some ⟨Player.RED, false, 5, 2⟩ ∧
    isInBounds 3 0 = true ∧
    (((3 : Int) - 5).natAbs = 2 ∧ ((0 : Int) - 2).natAbs = 2) ∧
    executeMove chainGame 5 2 3 0 = (true, (executeMove chainGame 5 2 3 0).2) ∧
    getPiece (executeMove chainGame 5 2 3 0).2.board ((5 + 3) / 2) ((2 + 0) / 2) = none ∧
    getPiece (executeMove chainGame 5 2 3 0).2.board 3 0 =
      some ⟨Player.RED, false, 3, 0⟩ ∧
    (executeMove chainGame 5 2 3 0).2.currentPlayer = chainGame.currentPlayer := by
  have h := C4_execution_order chainGame 5 2 3 0 ⟨Player.RED, false, 5, 2⟩
    (by decide) (by decide) (Or.inr ⟨by decide, by decide⟩) true
    (executeMove chainGame 5 2 3 0).2 rfl
  exact ⟨by decide, by decide, ⟨by decide, by decide⟩, rfl,
    h.1 (by decide), (h.2.1 rfl).1, (h.2.1 rfl).2⟩

/-- C1: when the side to move has at least one legal jump anywhere on the
board, a submitted one-square-diagonal (simple) candidate moving the
mover's own piece is rejected with the capture-mandatory condition and the
state is unchanged; and any candidate accepted this turn is a jump that
passes `isJumpValid`. -/
theorem C1_capture_mandatory (g : GameState) (r1 c1 r2 c2 : Int)
    (hforce : getAllPossibleJumps g ≠ []) :
    (∀ p, getPiece g.board r1 c1 = some p → p.owner = g.currentPlayer →
      (r2 - r1).natAbs = 1 → (c2 - c1).natAbs = 1 →
      decideMove g r1 c1 r2 c2 = (Outcome.captureMandatory, g)) ∧
    (∀ o g', decideMove g r1 c1 r2 c2 = (o, g') →
      (o = Outcome.turnEnded ∨ o = Outcome.continuationRequired) →
      (r2 - r1).natAbs = 2 ∧ isJumpValid g.board r1 c1 r2 c2 = true) := by
  constructor
  · intro p hp hown hr hc
    simp [decideMove, hp, hown, hforce, hr]
  · intro o g' h hacc
    cases hp : getPiece g.board r1 c1 with
    | none =>
      simp only [decideMove, hp] at h
      injection h with ho hg
      subst ho
      rcases hacc with hh | hh <;> exact Outcome.noConfusion hh
    | some p =>
      simp only [decideMove, hp] at h
      repeat' split at h
      all_goals injection h with ho hg
      all_goals subst ho
      all_goals try (rcases hacc with hh | hh <;> exact Outcome.noConfusion hh)
      all_goals exact ⟨by assumption, by assumption⟩

/-- Witness for C1: in the chain position (Red has jumps available), the
simple candidate (5,6)→(4,7) is rejected with the capture-mandatory
condition and the state is unchanged. -/
theorem C1_capture_mandatory_witness :
    getAllPossibleJumps chainGame ≠ [] ∧
    decideMove chainGame 5 6 4 7 = (Outcome.captureMandatory, chainGame) :=
  ⟨by decide,
    (C1_capture_mandatory chainGame 5 6 4 7 (by decide)).1
      ⟨Player.RED, false, 5, 6⟩ (by decide) rfl (by decide) (by decide)⟩

/-- C2 fails on the code: in the chain position, the jump (5,2)→(3,0) is
accepted and reported as requiring a continuation (a further jump by the
landed piece exists from (3,0)), the side to move stays Red — yet the next
submitted candidate (5,6)→(3,4), a jump by a *different* piece that does
not start from the required square (3,0), is accepted and ends the turn,
changing the state instead of being rejected. -/
theorem C2_continuation_not_restricted :
    (decideMove chainGame 5 2 3 0).1 = Outcome.continuationRequired ∧
    getPossibleJumpsForPiece (decideMove chainGame 5 2 3 0).2.board 3 0 ≠ [] ∧
    (decideMove chainGame 5 2 3 0).2.currentPlayer = Player.RED ∧
    (decideMove (decideMove chainGame 5 2 3 0).2 5 6 3 4).1 = Outcome.turnEnded ∧
    (decideMove (decideMove chainGame 5 2 3 0).2 5 6 3 4).2.currentPlayer =
      Player.BLACK := by
  decide

/-- A valid jump implies an occupied source square and a two-square
diagonal displacement. -/
theorem jumpValid_facts (b : Board) (r1 c1 r2 c2 : Int)
    (hv : isJumpValid b r1 c1 r2 c2 = true) :
    (∃ p, getPiece b r1 c1 = some p) ∧
    (r2 - r1).natAbs = 2 ∧ (c2 - c1).natAbs = 2 := by
  cases hsrc : getPiece b r1 c1 with
  | none => simp [isJumpValid, hsrc] at hv
  | some p =>
    cases htgt : getPiece b r2 c2 with
    | some t => simp [isJumpValid, hsrc, htgt] at hv
    | none =>
      by_cases hg : (r2 - r1).natAbs ≠ 2 ∨ (c2 - c1).natAbs ≠ 2
      · simp [isJumpValid, hsrc, htgt, hg] at hv
      · push_neg at hg
        exact ⟨⟨p, rfl⟩, hg.1, hg.2⟩

/-- A valid simple move implies an occupied source square and a one-square
diagonal displacement. -/
theorem simpleValid_facts (b : Board) (r1 c1 r2 c2 : Int)
    (hv : isSimpleMoveValid b r1 c1 r2 c2 = true) :
    (∃ p, getPiece b r1 c1 = some p) ∧
    (r2 - r1).natAbs = 1 ∧ (c2 - c1).natAbs = 1 := by
  cases hsrc : getPiece b r1 c1 with
  | none => simp [isSimpleMoveValid, hsrc] at hv
  | some p =>
    cases htgt : getPiece b r2 c2 with
    | some t => simp [isSimpleMoveValid, hsrc, htgt] at hv
    | none =>
      by_cases hg : (r2 - r1).natAbs ≠ 1 ∨ (c2 - c1).natAbs ≠ 1
      · simp [isSimpleMoveValid, hsrc, htgt, hg] at hv
      · push_neg at hg
        exact ⟨⟨p, rfl⟩, hg.1, hg.2⟩

/-- The initial placement satisfies the board invariant. -/
theorem boardInv_initialBoard : boardInv initialBoard := by
  intro r c p hq
  unfold getPiece initialBoard at hq
  split_ifs at hq with h1 h2 h3 h4
  all_goals
    first
      | exact Option.noConfusion hq
      | (injection hq with hv; rw [← hv]; exact ⟨rfl, rfl, by omega⟩)

/-- `movePiece` preserves the board invariant when the source square is
occupied and the target square is dark. -/
theorem boardInv_movePiece (b : Board) (r1 c1 r2 c2 : Int) (p : Piece)
    (hInv : boardInv b) (hp : getPiece b r1 c1 = some p)
    (hpar : (r2 + c2) % 2 = 1) :
    boardInv (movePiece b r1 c1 r2 c2) := by
  obtain ⟨_, _, _, _, hraw⟩ := getPiece_some b r1 c1 p hp
  intro r c q hq
  by_cases hob : r < 0 ∨ 8 ≤ r ∨ c < 0 ∨ 8 ≤ c
  · unfold getPiece at hq
    rw [if_pos hob] at hq
    exact Option.noConfusion hq
  · have hvals : (movePiece b r1 c1 r2 c2) r c = some q := by
      unfold getPiece at hq
      rwa [if_neg hob] at hq
    simp only [movePiece, hraw] at hvals
    split_ifs at hvals with he1 he2
    · injection hvals with hv
      rw [← hv]
      exact ⟨he2.1.symm, he2.2.symm, by
        rcases he2 with ⟨rfl, rfl⟩
        exact hpar⟩
    · have hgp : getPiece b r c = some q := by
        unfold getPiece
        rwa [if_neg hob]
      exact hInv r c q hgp

/-- `removePiece` preserves the board invariant. -/
theorem boardInv_removePiece (b : Board) (r c : Int) (hInv : boardInv b) :
    boardInv (removePiece b r c) := by
  intro r' c' q hq
  by_cases he : r' = r ∧ c' = c
  · rcases he with ⟨rfl, rfl⟩
    rw [getPiece_removePiece_self] at hq
    exact Option.noConfusion hq
  · rw [getPiece_removePiece_ne _ _ _ _ _ he] at hq
    exact hInv r' c' q hq

/-- `promoteAt` preserves the board invariant. -/
theorem boardInv_promoteAt (b : Board) (r c : Int) (hInv : boardInv b) :
    boardInv (promoteAt b r c) := by
  intro r' c' q hq
  by_cases he : r' = r ∧ c' = c
  · rcases he with ⟨rfl, rfl⟩
    cases hq0 : getPiece b r' c' with
    | none =>
      have hid : promoteAt b r' c' = b := by
        simp only [promoteAt, hq0]
      rw [hid, hq0] at hq
      exact Option.noConfusion hq
    | some q0 =>
      by_cases hpr : (q0.owner = Player.RED ∧ r' = 0) ∨ (q0.owner = Player.BLACK ∧ r' = 7)
      · rw [getPiece_promoteAt_self_promo b r' c' q0 hq0 hpr] at hq
        injection hq with hv
        rw [← hv]
        have h0 := hInv r' c' q0 hq0
        exact ⟨h0.1, h0.2.1, h0.2.2⟩
      · rw [getPiece_promoteAt_self_nopromo b r' c' q0 hq0 hpr] at hq
        injection hq with hv
        rw [← hv]
        exact hInv r' c' q0 hq0
  · rw [getPiece_promoteAt_ne _ _ _ _ _ he] at hq
    exact hInv r' c' q hq

/-- `executeMove` preserves the board invariant when the source square is
occupied and the landing square is dark. -/
theorem boardInv_executeMove (g : GameState) (r1 c1 r2 c2 : Int) (p : Piece)
    (hInv : boardInv g.board) (hp : getPiece g.board r1 c1 = some p)
    (hpar : (r2 + c2) % 2 = 1) :
    boardInv (executeMove g r1 c1 r2 c2).2.board := by
  have h1 : boardInv (movePiece g.board r1 c1 r2 c2) :=
    boardInv_movePiece g.board r1 c1 r2 c2 p hInv hp hpar
  simp only [executeMove]
  split
  · split
    · exact boardInv_removePiece _ _ _ h1
    · exact boardInv_promoteAt _ _ _ (boardInv_removePiece _ _ _ h1)
  · exact boardInv_promoteAt _ _ _ h1

/-- A validated move (jump or simple) starting on an occupied square of a
board satisfying the invariant lands on a dark square. -/
theorem parity_target (b : Board) (r1 c1 r2 c2 : Int) (p : Piece)
    (hInv : boardInv b) (hp : getPiece b r1 c1 = some p)
    (hv : isJumpValid b r1 c1 r2 c2 = true ∨
      isSimpleMoveValid b r1 c1 r2 c2 = true) :
    (r2 + c2) % 2 = 1 := by
  have h0 := hInv r1 c1 p hp
  rcases hv with hv | hv
  · obtain ⟨_, hg1, hg2⟩ := jumpValid_facts b r1 c1 r2 c2 hv
    omega
  · obtain ⟨_, hg1, hg2⟩ := simpleValid_facts b r1 c1 r2 c2 hv
    omega

/-- Every `decideMove` step preserves the board invariant: rejections
return the state unchanged, and accepted moves relocate a piece from an
occupied (hence dark) square along a diagonal displacement, so the landing
square is dark too. -/
theorem boardInv_decideMove (g : GameState) (r1 c1 r2 c2 : Int)
    (o : Outcome) (g' : GameState) (hInv : boardInv g.board)
    (h : decideMove g r1 c1 r2 c2 = (o, g')) :
    boardInv g'.board := by
  cases hp : getPiece g.board r1 c1 with
  | none =>
    simp only [decideMove, hp] at h
    injection h with ho hg
    rw [← hg]
    exact hInv
  | some p =>
    simp only [decideMove, hp] at h
    repeat' split at h
    all_goals injection h with ho hg
    all_goals rw [← hg]
    all_goals
      first
        | exact hInv
        | exact boardInv_executeMove g r1 c1 r2 c2 p hInv hp
            (parity_target g.board r1 c1 r2 c2 p hInv hp (Or.inl (by assumption)))
        | exact boardInv_executeMove g r1 c1 r2 c2 p hInv hp
            (parity_target g.board r1 c1 r2 c2 p hInv hp (Or.inr (by assumption)))

/-- C8: in every game state reachable from initialization through the
engine's candidate handling, the board invariant holds — every occupied
square stores a piece whose recorded position matches the square, and only
dark squares are occupied.  Initialization establishes the invariant and
every applied simple move, jump and capture removal preserves it. -/
theorem C8_reachable_board_invariant (g : GameState) (h : Reachable g) :
    boardInv g.board := by
  induction h with
  | init => exact boardInv_initialBoard
  | step g r1 c1 r2 c2 o g' hr hb1 hb2 hne hd ih =>
    exact boardInv_decideMove g r1 c1 r2 c2 o g' ih hd

/-- Witness for C8 at the initial state. -/
theorem C8_reachable_board_invariant_witness : boardInv initGame.board :=
  C8_reachable_board_invariant initGame Reachable.init

end Checkers
